import Mathlib

set_option maxHeartbeats 1000000
set_option linter.unusedVariables false

/- Shallow embedding of parts of the fenjing SSTI payload generator:
   the attribute/item rule module (src/fenjing/rules/get_attritem.py),
   the submitter layer (src/fenjing/submitter.py) and the CLI driver
   helpers (src/fenjing/cli.py). -/

/-- The two access-step tags `ATTRIBUTE` and `ITEM` from `const.py`,
used both as requirement heads and inside chained-access step lists. -/
inductive AccessKind where
  | attributeKind
  | itemKind
deriving DecidableEq

/-- The tagged tuples of the fenjing grammar.  In the Python source a
target list freely mixes fragment tuples (`LITERAL`, `STRING`,
`INTEGER`, `WHITESPACE`, `ENCLOSE_UNDER`, `ONEOF`, `WRAP`) with
requirement tuples (`EXPRESSION`, `ATTRIBUTE`, `ITEM`, `FUNCTION_CALL`,
`CHAINED_ATTRIBUTE_ITEM`, `UNSATISFIED`); one inductive type mirrors
that untyped union. -/
inductive Target where
  | literal (s : String)
  | str (s : String)
  | integer (n : Nat)
  | whitespace
  | unsatisfied
  | encloseUnder (required : Nat) (t : Target)
  | oneof (alts : List (List Target))
  | wrap (ts : List Target)
  | expression (prec : Nat) (ts : List Target)
  | attribute (obj : Target) (name : String)
  | item (obj : Target) (name : String)
  | functionCall (f : Target) (args : List Target)
  | chained (obj : Target) (steps : List (AccessKind × String))

/-- `[A-Za-z_]`, the leading character class of the identifier regex in
`gen_attribute_normal1` / `gen_item_normal1`. -/
def identStartChar (c : Char) : Bool :=
  decide (('A' ≤ c ∧ c ≤ 'Z') ∨ ('a' ≤ c ∧ c ≤ 'z') ∨ c = '_')

/-- `[A-Za-z0-9_]`, the continuation character class of that regex. -/
def identContChar (c : Char) : Bool :=
  decide (('A' ≤ c ∧ c ≤ 'Z') ∨ ('a' ≤ c ∧ c ≤ 'z') ∨
    ('0' ≤ c ∧ c ≤ '9') ∨ c = '_')

/-- Truthiness of Python `re.match("[A-Za-z_]([A-Za-z0-9_]+)?", s)`.
`re.match` anchors only at the START of `s` (it matches a prefix, not
the whole string), and the group `([A-Za-z0-9_]+)?` is optional and can
always match the empty string, so the call succeeds exactly when the
first character of `s` matches `[A-Za-z_]`. -/
def matchIdentAtStart (s : String) : Bool :=
  match s.data with
  | [] => false
  | c :: _ => identStartChar c

/-- A name that is entirely of the form `[A-Za-z_][A-Za-z0-9_]*`, i.e.
a name legal for dotted-access syntax (what `re.fullmatch` of the same
pattern would check). -/
def isIdentName (s : String) : Bool :=
  match s.data with
  | [] => false
  | c :: cs => identStartChar c && cs.all identContChar

/- The rules read the global `precedence` table of `payload_gen.py`,
which is not part of src/; every rule below therefore takes the table
as an explicit argument `prec : String → Nat` (an immutable map from
grammar-construct name to numeric level, per the spec's data model) and
a `context` argument mirroring the unused Python `context` parameter. -/

/-- `gen_attribute_normal1` (get_attritem.py lines 14-23): dotted
attribute access `obj.name`, declined when the name fails the
(prefix-anchored) identifier check. -/
def gen_attribute_normal1 (context : Unit) (prec : String → Nat)
    (obj_req : Target) (attr_name : String) : List Target :=
  if !matchIdentAtStart attr_name then [.unsatisfied]
  else
    [.expression (prec "attribute")
      [.encloseUnder (prec "attribute") obj_req,
       .literal ".",
       .literal attr_name]]

/-- `gen_attribute_normal2`: bracketed access `obj["name"]`. -/
def gen_attribute_normal2 (context : Unit) (prec : String → Nat)
    (obj_req : Target) (attr_name : String) : List Target :=
  [.expression (prec "attribute")
    [.encloseUnder (prec "attribute") obj_req,
     .literal "[",
     .str attr_name,
     .literal "]"]]

/-- `gen_attribute_attrfilter` (get_attritem.py lines 38-47): access via
the `|attr` filter. -/
def gen_attribute_attrfilter (context : Unit) (prec : String → Nat)
    (obj_req : Target) (attr_name : String) : List Target :=
  [.expression (prec "filter")
    [.encloseUnder (prec "filter") obj_req,
     .literal "|attr",
     .wrap [.str attr_name]]]

/-- `gen_attribute_map3` (get_attritem.py lines 77-110): chunk
reassembly for names of at most 4 characters.  The `targets_from_pattern`
call expands the pattern
`{ANYTHING:OBJ}|items|map(LAST)|map(*(ATTRNAME|batch(4)|map(JOIN)|list))|list|FILTER_THAT`
by substituting the mapped fragments for the placeholder keys and
turning the remaining pattern text into literal fragments (written here
as maximal literal runs). -/
def gen_attribute_map3 (context : Unit) (prec : String → Nat)
    (obj_req : Target) (attr_name : String) : List Target :=
  if attr_name.length > 4 then [.unsatisfied]
  else
    [.expression (prec "filter_with_function_call")
      [.literal "\x7b",
       .oneof [[.literal "x"], [.integer 0], [.integer 1]],
       .literal ":",
       obj_req,
       .literal "\x7d|items|map(",
       .str "last",
       .literal ")|map(*(",
       .encloseUnder (prec "filter") (.str ("attr" ++ attr_name)),
       .literal "|batch(",
       .integer 4,
       .literal ")|map(",
       .str "join",
       .literal ")|list))|list|",
       .oneof [[.literal "last"], [.literal "first"]]]]

/-- `gen_attribute_map4` (get_attritem.py lines 113-148): chunk
reassembly for names of at least 4 characters, chunk size equal to the
name length, chunk list reversed; pattern
`{ANYTHING:OBJ}|items|map(LAST)|map(*(ATTRNAME|batch(NAMELENGTH)|map(JOIN)|list|reverse))|list|FILTER_THAT`. -/
def gen_attribute_map4 (context : Unit) (prec : String → Nat)
    (obj_req : Target) (attr_name : String) : List Target :=
  if attr_name.length < 4 then [.unsatisfied]
  else
    [.expression (prec "filter_with_function_call")
      [.literal "\x7b",
       .oneof [[.literal "x"], [.integer 0], [.integer 1]],
       .literal ":",
       obj_req,
       .literal "\x7d|items|map(",
       .str "last",
       .literal ")|map(*(",
       .encloseUnder (prec "filter") (.str (attr_name ++ "attr")),
       .literal "|batch(",
       .integer attr_name.length,
       .literal ")|map(",
       .str "join",
       .literal ")|list|reverse))|list|",
       .oneof [[.literal "last"], [.literal "first"]]]]

/-- `gen_item_normal1` (get_attritem.py lines 154-163): dotted item
access, same prefix-anchored identifier check as
`gen_attribute_normal1`. -/
def gen_item_normal1 (context : Unit) (prec : String → Nat)
    (obj_req : Target) (item_name : String) : List Target :=
  if !matchIdentAtStart item_name then [.unsatisfied]
  else
    [.expression (prec "item")
      [.encloseUnder (prec "item") obj_req,
       .literal ".",
       .literal item_name]]

/-- The local `target_head` list built by `gen_item_getfunc2`. -/
def gen_item_getfunc2_head (prec : String → Nat)
    (obj_req : Target) (item_name : String) : List Target :=
  [.encloseUnder (prec "function_call") (.attribute obj_req "get"),
   .literal "(",
   .whitespace,
   .str item_name,
   .whitespace]

/-- `gen_item_getfunc2` (get_attritem.py lines 183-197): item access via
a call to `obj.get`, with a `ONEOF` over the two closing conventions. -/
def gen_item_getfunc2 (context : Unit) (prec : String → Nat)
    (obj_req : Target) (item_name : String) : List Target :=
  [.expression (prec "function_call")
    [.oneof
      [gen_item_getfunc2_head prec obj_req item_name ++ [.literal ")"],
       gen_item_getfunc2_head prec obj_req item_name ++ [.literal ",)"]]]]

/-- Builds the requirement tuple `(req_type, obj_req, req_name)` used by
`gen_chained_attribute_item_normal`, where `req_type` is `ATTRIBUTE` or
`ITEM`. -/
def mkAccessReq : AccessKind → Target → String → Target
  | .attributeKind, obj, name => .attribute obj name
  | .itemKind, obj, name => .item obj name

/-- `gen_chained_attribute_item_normal` (get_attritem.py lines 277-297):
an empty step list returns the object requirement itself; otherwise the
first step is nested around the object and the remaining steps are
carried by a recursive `CHAINED_ATTRIBUTE_ITEM` requirement. -/
def gen_chained_attribute_item_normal (context : Unit)
    (obj_req : Target) (attr_item_req : List (AccessKind × String)) :
    List Target :=
  match attr_item_req with
  | [] => [obj_req]
  | (req_type, req_name) :: other_req =>
      [.chained (mkAccessReq req_type obj_req req_name) other_req]

/-- Iterating the single candidate of `gen_chained_attribute_item_normal`
until the step list is exhausted: each application wraps the object in
one more `ATTRIBUTE`/`ITEM` layer. -/
def chainResolve (obj : Target) : List (AccessKind × String) → Target
  | [] => obj
  | (k, n) :: rest => chainResolve (mkAccessReq k obj n) rest

/- ----- string utilities (List Char level) ----- -/

/-- `pat` is a prefix of `l` (character lists). -/
def startsWithChars : List Char → List Char → Bool
  | [], _ => true
  | _ :: _, [] => false
  | p :: ps, c :: cs => p == c && startsWithChars ps cs

/-- `pat` occurs contiguously somewhere in `l` (Python `pat in l`). -/
def hasSubChars (pat : List Char) : List Char → Bool
  | [] => pat.isEmpty
  | c :: cs => startsWithChars pat (c :: cs) || hasSubChars pat cs

/-- Python's `sub in s` substring test on strings. -/
def pyIn (sub s : String) : Bool :=
  hasSubChars sub.data s.data

/- ----- rendering (Resolver side, modelled from the spec) ----- -/

/-- Modelled from the spec: the Resolver's handling of an
`ENCLOSE_UNDER` fragment (the resolver module `payload_gen.py` is not
under src/).  Per the spec, the embedded candidate's precedence is
compared against the required precedence and the rendered
sub-expression is wrapped in explicit grouping syntax exactly when it
is strictly lower. -/
def encloseRender (required subPrec : Nat) (rendered : String) : String :=
  if subPrec < required then "(" ++ rendered ++ ")" else rendered

/-- Python-style single-quoted string literal, the direct first-choice
rendering of a `STRING` requirement. -/
def pyStrLiteral (s : String) : String :=
  "\x27" ++ s ++ "\x27"

mutual

/-- Modelled from the spec: one concrete rendering pass of the Resolver
(`payload_gen.py` is not under src/).  Fragments are rendered in order
and concatenated; `LITERAL` emits its text, `STRING` its direct
single-quoted literal (the first, least obfuscated string rule),
`INTEGER` its decimal text, `WHITESPACE` a single space, `ONEOF` its
first listed alternative (alternatives are tried in listed order),
`ENCLOSE_UNDER` the embedded fragment (the direct renderings used here
are atomic, so no grouping is required), `ATTRIBUTE`/`ITEM`/
`FUNCTION_CALL`/`CHAINED_ATTRIBUTE_ITEM` their direct syntax.  The
`fuel` argument only bounds recursion depth. -/
def renderFrag : Nat → Target → String
  | 0, _ => ""
  | fuel + 1, t =>
    match t with
    | .literal s => s
    | .str s => pyStrLiteral s
    | .integer n => Nat.repr n
    | .whitespace => " "
    | .unsatisfied => ""
    | .encloseUnder _ sub => renderFrag fuel sub
    | .oneof alts =>
      match alts with
      | [] => ""
      | a :: _ => renderList fuel a
    | .wrap ts => "(" ++ renderList fuel ts ++ ")"
    | .expression _ ts => renderList fuel ts
    | .attribute obj name => renderFrag fuel obj ++ "." ++ name
    | .item obj name => renderFrag fuel obj ++ "[" ++ pyStrLiteral name ++ "]"
    | .functionCall f args => renderFrag fuel f ++ "(" ++ renderList fuel args ++ ")"
    | .chained obj steps =>
      steps.foldl
        (fun acc st =>
          acc ++ (match st.1 with
            | .attributeKind => "." ++ st.2
            | .itemKind => "[" ++ pyStrLiteral st.2 ++ "]"))
        (renderFrag fuel obj)

/-- Concatenated rendering of a fragment list (same fuel convention). -/
def renderList : Nat → List Target → String
  | 0, _ => ""
  | fuel + 1, ts =>
    match ts with
    | [] => ""
    | t :: rest => renderFrag fuel t ++ renderList fuel rest

end

mutual

/-- All `LITERAL` texts occurring in a fragment, in order (descending
into every `ONEOF` alternative). -/
def litTextsT : Nat → Target → List String
  | 0, _ => []
  | fuel + 1, t =>
    match t with
    | .literal s => [s]
    | .str _ => []
    | .integer _ => []
    | .whitespace => []
    | .unsatisfied => []
    | .encloseUnder _ sub => litTextsT fuel sub
    | .oneof alts => litTextsAlts fuel alts
    | .wrap ts => litTextsL fuel ts
    | .expression _ ts => litTextsL fuel ts
    | .attribute obj _ => litTextsT fuel obj
    | .item obj _ => litTextsT fuel obj
    | .functionCall f args => litTextsT fuel f ++ litTextsL fuel args
    | .chained obj _ => litTextsT fuel obj

/-- `litTextsT` over a fragment list. -/
def litTextsL : Nat → List Target → List String
  | 0, _ => []
  | fuel + 1, ts =>
    match ts with
    | [] => []
    | t :: rest => litTextsT fuel t ++ litTextsL fuel rest

/-- `litTextsT` over `ONEOF` alternatives. -/
def litTextsAlts : Nat → List (List Target) → List String
  | 0, _ => []
  | fuel + 1, alts =>
    match alts with
    | [] => []
    | a :: rest => litTextsL fuel a ++ litTextsAlts fuel rest

end

mutual

/-- All `STRING` payloads occurring in a fragment, in order. -/
def strTextsT : Nat → Target → List String
  | 0, _ => []
  | fuel + 1, t =>
    match t with
    | .literal _ => []
    | .str s => [s]
    | .integer _ => []
    | .whitespace => []
    | .unsatisfied => []
    | .encloseUnder _ sub => strTextsT fuel sub
    | .oneof alts => strTextsAlts fuel alts
    | .wrap ts => strTextsL fuel ts
    | .expression _ ts => strTextsL fuel ts
    | .attribute obj _ => strTextsT fuel obj
    | .item obj _ => strTextsT fuel obj
    | .functionCall f args => strTextsT fuel f ++ strTextsL fuel args
    | .chained obj _ => strTextsT fuel obj

/-- `strTextsT` over a fragment list. -/
def strTextsL : Nat → List Target → List String
  | 0, _ => []
  | fuel + 1, ts =>
    match ts with
    | [] => []
    | t :: rest => strTextsT fuel t ++ strTextsL fuel rest

/-- `strTextsT` over `ONEOF` alternatives. -/
def strTextsAlts : Nat → List (List Target) → List String
  | 0, _ => []
  | fuel + 1, alts =>
    match alts with
    | [] => []
    | a :: rest => strTextsL fuel a ++ strTextsAlts fuel rest

end

/- ----- helper lemmas ----- -/

theorem encloseRender_wrap_iff (L sp : Nat) (r : String) :
    encloseRender L sp r = "(" ++ r ++ ")" ↔ sp < L := by
  unfold encloseRender
  by_cases h : sp < L
  · simp [h]
  · simp only [h, if_false, iff_false]
    intro he
    have hlen := congrArg String.length he
    rw [String.length_append, String.length_append] at hlen
    have h1 : ("(" : String).length = 1 := rfl
    have h2 : (")" : String).length = 1 := rfl
    rw [h1, h2] at hlen
    omega

theorem encloseRender_id_iff (L sp : Nat) (r : String) :
    encloseRender L sp r = r ↔ ¬ sp < L := by
  unfold encloseRender
  by_cases h : sp < L
  · simp only [h, if_true, not_true, iff_false]
    intro he
    have hlen := congrArg String.length he
    rw [String.length_append, String.length_append] at hlen
    have h1 : ("(" : String).length = 1 := rfl
    have h2 : (")" : String).length = 1 := rfl
    rw [h1, h2] at hlen
    omega
  · simp [h]

theorem chainResolve_eq_foldl :
    ∀ (steps : List (AccessKind × String)) (obj : Target),
    chainResolve obj steps =
      steps.foldl (fun acc st => mkAccessReq st.1 acc st.2) obj := by
  intro steps
  induction steps with
  | nil => intro obj; rfl
  | cons st rest ih =>
    intro obj
    cases st with
    | mk k n => simp [chainResolve, List.foldl, ih]

/- ----- claim theorems ----- -/

/-- Claim C1: the dotted-access rule embeds its object sub-requirement
via `ENCLOSE_UNDER` at `precedence["attribute"]`, the `|attr` filter
rule at `precedence["filter"]`, and the call-syntax rule
`gen_item_getfunc2` at `precedence["function_call"]` (each equal to the
candidate's own precedence level); and the (spec-modelled) rendering of
an `ENCLOSE_UNDER` fragment adds explicit grouping around the rendered
sub-expression exactly when the sub-candidate's precedence is strictly
lower than the required level, and leaves it unwrapped exactly when it
is greater or equal. -/
theorem enclose_under_precedence_spec :
  ∀ (ctx : Unit) (prec : String → Nat) (obj : Target) (name : String)
    (L sp : Nat) (r : String),
  matchIdentAtStart name = true →
  (gen_attribute_normal1 ctx prec obj name =
    [.expression (prec "attribute")
      [.encloseUnder (prec "attribute") obj, .literal ".", .literal name]]) ∧
  (gen_attribute_attrfilter ctx prec obj name =
    [.expression (prec "filter")
      [.encloseUnder (prec "filter") obj, .literal "|attr",
       .wrap [.str name]]]) ∧
  (gen_item_getfunc2 ctx prec obj name =
    [.expression (prec "function_call")
      [.oneof [gen_item_getfunc2_head prec obj name ++ [.literal ")"],
               gen_item_getfunc2_head prec obj name ++ [.literal ",)"]]]]) ∧
  ((gen_item_getfunc2_head prec obj name).head? =
    some (.encloseUnder (prec "function_call") (.attribute obj "get"))) ∧
  (encloseRender L sp r = "(" ++ r ++ ")" ↔ sp < L) ∧
  (encloseRender L sp r = r ↔ ¬ sp < L) := by
  intro ctx prec obj name L sp r h
  refine ⟨?_, rfl, rfl, rfl, encloseRender_wrap_iff L sp r,
    encloseRender_id_iff L sp r⟩
  simp [gen_attribute_normal1, h]

/-- Claim C1 witness: concrete instance. -/
theorem enclose_under_precedence_spec_witness :
  (gen_attribute_normal1 () (fun _ => 3) (Target.literal "o") "name" =
    [.expression 3
      [.encloseUnder 3 (Target.literal "o"), .literal ".", .literal "name"]]) ∧
  (encloseRender 3 1 "x" = "(" ++ "x" ++ ")" ↔ 1 < 3) ∧
  (encloseRender 3 5 "x" = "x" ↔ ¬ 5 < 3) := by
  have h := enclose_under_precedence_spec () (fun _ => 3) (Target.literal "o")
    "name" 3 1 "x" (by decide)
  have h2 := enclose_under_precedence_spec () (fun _ => 3) (Target.literal "o")
    "name" 3 5 "x" (by decide)
  exact ⟨h.1, h.2.2.2.2.1, h2.2.2.2.2.2⟩

/-- Claim C2 (code bug in the source): the identifier check of
`gen_attribute_normal1` and `gen_item_normal1` uses `re.match`, which
is prefix-anchored, where a full match was clearly intended: for the
name "a-b" — not a dotted-access identifier — both rules emit the
dotted-access candidate containing the illegal name instead of
returning the `[(UNSATISFIED,)]` marker the claim (and the spec's
Malformed-Requirement-Argument rule) require. -/
theorem attribute_normal1_accepts_nonident :
  isIdentName "a-b" = false ∧
  (∀ (ctx : Unit) (prec : String → Nat) (obj : Target),
    gen_attribute_normal1 ctx prec obj "a-b" =
      [.expression (prec "attribute")
        [.encloseUnder (prec "attribute") obj,
         .literal ".", .literal "a-b"]]) ∧
  (∀ (ctx : Unit) (prec : String → Nat) (obj : Target),
    gen_item_normal1 ctx prec obj "a-b" =
      [.expression (prec "item")
        [.encloseUnder (prec "item") obj,
         .literal ".", .literal "a-b"]]) := by
  refine ⟨by decide, ?_, ?_⟩ <;> intro ctx prec obj <;> rfl

/-- Claim C4: `gen_chained_attribute_item_normal` returns the object
requirement unchanged for an empty step list; for a non-empty list it
returns exactly one candidate nesting the first step around the object
and carrying the remaining steps in a recursive
`CHAINED_ATTRIBUTE_ITEM` requirement; iterating that rule unfolds to
the left fold of the step list over the object. -/
theorem chained_fold_correct :
  (∀ (ctx : Unit) (obj : Target),
    gen_chained_attribute_item_normal ctx obj [] = [obj]) ∧
  (∀ (ctx : Unit) (obj : Target) (k : AccessKind) (n : String)
      (rest : List (AccessKind × String)),
    gen_chained_attribute_item_normal ctx obj ((k, n) :: rest) =
      [.chained (mkAccessReq k obj n) rest]) ∧
  (∀ (obj : Target) (k : AccessKind) (n : String)
      (rest : List (AccessKind × String)),
    chainResolve obj ((k, n) :: rest) =
      chainResolve (mkAccessReq k obj n) rest) ∧
  (∀ (obj : Target) (steps : List (AccessKind × String)),
    chainResolve obj steps =
      steps.foldl (fun acc st => mkAccessReq st.1 acc st.2) obj) :=
  ⟨fun _ _ => rfl, fun _ _ _ _ _ => rfl, fun _ _ _ _ => rfl,
   fun obj steps => chainResolve_eq_foldl steps obj⟩

/-- Claim C10: `gen_attribute_map3` declines exactly the names longer
than 4 characters, `gen_attribute_map4` exactly those shorter than 4,
so every name gets a real candidate from at least one of the two rules
(from both when the length is exactly 4). -/
theorem attribute_map_coverage :
  ∀ (ctx : Unit) (prec : String → Nat) (obj : Target) (name : String),
  (gen_attribute_map3 ctx prec obj name = [.unsatisfied] ↔
    name.length > 4) ∧
  (gen_attribute_map4 ctx prec obj name = [.unsatisfied] ↔
    name.length < 4) ∧
  (¬(gen_attribute_map3 ctx prec obj name = [.unsatisfied]) ∨
   ¬(gen_attribute_map4 ctx prec obj name = [.unsatisfied])) ∧
  (name.length = 4 →
    ¬(gen_attribute_map3 ctx prec obj name = [.unsatisfied]) ∧
    ¬(gen_attribute_map4 ctx prec obj name = [.unsatisfied])) := by
  intro ctx prec obj name
  refine ⟨?_, ?_, ?_, ?_⟩
  · by_cases h : name.length > 4 <;> simp [gen_attribute_map3, h]
  · by_cases h : name.length < 4 <;> simp [gen_attribute_map4, h]
  · by_cases h : name.length > 4
    · right
      have h4 : ¬ name.length < 4 := by omega
      simp [gen_attribute_map4, h4]
    · left
      simp [gen_attribute_map3, h]
  · intro h
    have h3 : ¬ name.length > 4 := by omega
    have h4 : ¬ name.length < 4 := by omega
    exact ⟨by simp [gen_attribute_map3, h3], by simp [gen_attribute_map4, h4]⟩

/-- Claim C10 witness: a 4-character name is accepted by both rules. -/
theorem attribute_map_coverage_witness :
  ("name".length = 4) ∧
  ¬(gen_attribute_map3 () (fun _ => 0) Target.whitespace "name" =
      [.unsatisfied]) ∧
  ¬(gen_attribute_map4 () (fun _ => 0) Target.whitespace "name" =
      [.unsatisfied]) :=
  ⟨by decide,
   (attribute_map_coverage () (fun _ => 0) Target.whitespace "name").2.2.2
     (by decide)⟩

/-- Claim C3 counterexample: the attribute name "item" is within both
rules' length bounds (exactly 4 characters), yet the fully rendered
chunk-reassembly payloads contain "item" as a contiguous substring (via
the fixed literal `}|items|map(` and via the direct literal rendering
of the embedded chunk string), contradicting "never contains the
attribute name itself". -/
theorem attribute_map_contains_name_cex :
  ("item".length ≤ 4 && 4 ≤ "item".length) = true ∧
  pyIn "item"
    (renderFrag 40
      ((gen_attribute_map3 () (fun _ => 0)
        (Target.literal "o") "item").headD .unsatisfied)) = true ∧
  pyIn "item"
    (renderFrag 40
      ((gen_attribute_map4 () (fun _ => 0)
        (Target.literal "o") "item").headD .unsatisfied)) = true := by
  refine ⟨by decide, by decide, by decide⟩

/-- The fixed literal texts of a `gen_attribute_map3` candidate (the
embedded object and string/integer sub-requirements excluded). -/
def map3SkeletonLits : List String :=
  ["\x7b", "x", ":", "\x7d|items|map(", ")|map(*(", "|batch(",
   ")|map(", ")|list))|list|", "last", "first"]

/-- The fixed literal texts of a `gen_attribute_map4` candidate. -/
def map4SkeletonLits : List String :=
  ["\x7b", "x", ":", "\x7d|items|map(", ")|map(*(", "|batch(",
   ")|map(", ")|list|reverse))|list|", "last", "first"]

/-- Claim C3 as amended: within the rules' length bounds each rule emits
one structurally fixed candidate; its fixed literal fragments (computed
against a neutral object requirement) are exactly the skeleton token
lists, none of which contains `"attr"` — and hence none can equal or
contain an attribute name that avoids those filter keywords; the
attribute name itself occurs only inside the embedded chunk-string
sub-requirement (`"attr" + name` for map3, `name + "attr"` for map4),
whose rendering is delegated to the string rules and the acceptability
oracle.  (The rendered payload CAN contain the name, as the
counterexample at name "item" shows.) -/
theorem attribute_map_chunk_structure :
  ∀ (ctx : Unit) (prec : String → Nat) (obj : Target) (name : String),
  (name.length ≤ 4 →
    gen_attribute_map3 ctx prec obj name =
      [.expression (prec "filter_with_function_call")
        [.literal "\x7b",
         .oneof [[.literal "x"], [.integer 0], [.integer 1]],
         .literal ":",
         obj,
         .literal "\x7d|items|map(",
         .str "last",
         .literal ")|map(*(",
         .encloseUnder (prec "filter") (.str ("attr" ++ name)),
         .literal "|batch(",
         .integer 4,
         .literal ")|map(",
         .str "join",
         .literal ")|list))|list|",
         .oneof [[.literal "last"], [.literal "first"]]]]) ∧
  (4 ≤ name.length →
    gen_attribute_map4 ctx prec obj name =
      [.expression (prec "filter_with_function_call")
        [.literal "\x7b",
         .oneof [[.literal "x"], [.integer 0], [.integer 1]],
         .literal ":",
         obj,
         .literal "\x7d|items|map(",
         .str "last",
         .literal ")|map(*(",
         .encloseUnder (prec "filter") (.str (name ++ "attr")),
         .literal "|batch(",
         .integer name.length,
         .literal ")|map(",
         .str "join",
         .literal ")|list|reverse))|list|",
         .oneof [[.literal "last"], [.literal "first"]]]]) ∧
  (name.length ≤ 4 →
    litTextsL 40 (gen_attribute_map3 ctx prec Target.whitespace name) =
      map3SkeletonLits ∧
    strTextsL 40 (gen_attribute_map3 ctx prec Target.whitespace name) =
      ["last", "attr" ++ name, "join"]) ∧
  (4 ≤ name.length →
    litTextsL 40 (gen_attribute_map4 ctx prec Target.whitespace name) =
      map4SkeletonLits ∧
    strTextsL 40 (gen_attribute_map4 ctx prec Target.whitespace name) =
      ["last", name ++ "attr", "join"]) ∧
  ((map3SkeletonLits ++ map4SkeletonLits).all
    (fun s => !(pyIn "attr" s)) = true) := by
  intro ctx prec obj name
  refine ⟨fun h => ?_, fun h => ?_, fun h => ?_, fun h => ?_, by decide⟩
  · simp only [gen_attribute_map3,
      if_neg (show ¬ name.length > 4 by omega)]
  · simp only [gen_attribute_map4,
      if_neg (show ¬ name.length < 4 by omega)]
  · simp only [gen_attribute_map3,
      if_neg (show ¬ name.length > 4 by omega)]
    refine ⟨?_, ?_⟩ <;> rfl
  · simp only [gen_attribute_map4,
      if_neg (show ¬ name.length < 4 by omega)]
    refine ⟨?_, ?_⟩ <;> rfl

/-- Claim C3 (amended) witness: concrete instance at the 4-character
name "name". -/
theorem attribute_map_chunk_structure_witness :
  (litTextsL 40 (gen_attribute_map3 () (fun _ => 0)
      Target.whitespace "name") = map3SkeletonLits) ∧
  (strTextsL 40 (gen_attribute_map3 () (fun _ => 0)
      Target.whitespace "name") = ["last", "attr" ++ "name", "join"]) ∧
  (litTextsL 40 (gen_attribute_map4 () (fun _ => 0)
      Target.whitespace "name") = map4SkeletonLits) ∧
  (strTextsL 40 (gen_attribute_map4 () (fun _ => 0)
      Target.whitespace "name") = ["last", "name" ++ "attr", "join"]) := by
  have h := attribute_map_chunk_structure () (fun _ => 0)
    Target.whitespace "name"
  have h3 := h.2.2.1 (by decide)
  have h4 := h.2.2.2.1 (by decide)
  exact ⟨h3.1, h3.2, h4.1, h4.2⟩

/- ----- submitter layer (src/fenjing/submitter.py) ----- -/

/-- The `HTTPResponse` named tuple of submitter.py (lines 89-98):
status code and response body text. -/
structure HTTPResponse where
  status_code : Nat
  text : String

/-- `BaseSubmitter` (submitter.py lines 101-130): the tamperer list and
the subclass-provided `submit_raw`; the latter performs an external
network round trip and is modelled as an abstract function. -/
structure BaseSubmitter where
  tamperers : List (String → String)
  submit_raw : String → Option HTTPResponse

/-- `BaseSubmitter.add_tamperer` (submitter.py lines 113-119): appends
the new tamperer to the list. -/
def BaseSubmitter.add_tamperer (s : BaseSubmitter)
    (tamperer : String → String) : BaseSubmitter :=
  { s with tamperers := s.tamperers ++ [tamperer] }

/-- The tamperer loop of `BaseSubmitter.submit` (submitter.py lines
141-144): each tamperer's output is fed to the next, first-added
first. -/
def apply_tamperers (ts : List (String → String)) (payload : String) :
    String :=
  ts.foldl (fun payload tamperer => tamperer payload) payload

/-- `BaseSubmitter.submit` (submitter.py lines 132-149): apply the
tamperers in order, call `submit_raw`, propagate `None`, and otherwise
return the response with its text HTML-unescaped (Python's stdlib
`html.unescape` is external and abstracted as `unescape`). -/
def BaseSubmitter.submit (unescape : String → String)
    (s : BaseSubmitter) (payload : String) : Option HTTPResponse :=
  match s.submit_raw (apply_tamperers s.tamperers payload) with
  | none => none
  | some resp => some ⟨resp.status_code, unescape resp.text⟩

theorem foldl_add_tamperer (ts : List (String → String))
    (s0 : BaseSubmitter) :
    ts.foldl BaseSubmitter.add_tamperer s0 =
      { tamperers := s0.tamperers ++ ts,
        submit_raw := s0.submit_raw } := by
  induction ts generalizing s0 with
  | nil => simp
  | cons t rest ih => simp [List.foldl, BaseSubmitter.add_tamperer, ih]

/-- Claim C6: a submitter built by registering tamperers one by one
holds them in registration order; `submit` chains each tamperer's
output into the next (first added first), hands the transformed string
to `submit_raw`, returns `None` exactly when `submit_raw` does, and
otherwise returns a response with `submit_raw`'s status code and the
HTML-unescaped text. -/
theorem submitter_tamperer_chain :
  ∀ (raw : String → Option HTTPResponse) (unescape : String → String)
    (ts : List (String → String)) (t : String → String) (p : String),
  ((ts.foldl BaseSubmitter.add_tamperer
      { tamperers := [], submit_raw := raw }).tamperers = ts) ∧
  (BaseSubmitter.submit unescape
      (ts.foldl BaseSubmitter.add_tamperer
        { tamperers := [], submit_raw := raw }) p =
    match raw (apply_tamperers ts p) with
    | none => none
    | some resp => some ⟨resp.status_code, unescape resp.text⟩) ∧
  (BaseSubmitter.submit unescape
      (ts.foldl BaseSubmitter.add_tamperer
        { tamperers := [], submit_raw := raw }) p = none ↔
    raw (apply_tamperers ts p) = none) ∧
  (apply_tamperers (ts ++ [t]) p = t (apply_tamperers ts p)) ∧
  (apply_tamperers (t :: ts) p = apply_tamperers ts (t p)) := by
  intro raw unescape ts t p
  rw [foldl_add_tamperer]
  refine ⟨by simp, ?_, ?_, ?_, rfl⟩
  · simp [BaseSubmitter.submit]
  · simp only [BaseSubmitter.submit, List.nil_append]
    cases raw (apply_tamperers ts p) <;> simp
  · simp [apply_tamperers, List.foldl_append]

/- ----- the form responsiveness probe (src/fenjing/cli.py) ----- -/

/-- The three template-control-character probes of
`is_form_has_response` (cli.py lines 346-353). -/
def probe_patterns : List String := ["\x7b\x7b", "\x7b%", "\x7b#"]

/-- The per-field loop body of `is_form_has_response` (cli.py lines
333-363): `submit` stands for the freshly built
`FormSubmitter(...).submit` for that field (the network round trip is
external to src/), `m` for the random 4-lowercase-letter marker drawn
for it.  The condition is
`result1 is not None and marker in result1.text and
 any(marker not in result.text for result in musterror_result
     if result is not None)`. -/
def field_probe (submit : String → Option HTTPResponse) (m : String) :
    Bool :=
  match submit m with
  | none => false
  | some result1 =>
    pyIn m result1.text &&
      (probe_patterns.map (fun pattern => submit (pattern ++ m))).any
        (fun result =>
          match result with
          | none => false
          | some r => !(pyIn m r.text))

/-- `is_form_has_response` (cli.py lines 309-365): true if some input
field of the form passes the probe. -/
def is_form_has_response (inputs : List String)
    (submit : String → String → Option HTTPResponse)
    (marker : String → String) : Bool :=
  inputs.any (fun input_field =>
    field_probe (submit input_field) (marker input_field))

theorem any_option_match_iff (l : List (Option HTTPResponse))
    (p : HTTPResponse → Bool) :
    (l.any (fun result =>
      match result with
      | none => false
      | some r => p r)) = true ↔
    ∃ r, some r ∈ l ∧ p r = true := by
  induction l with
  | nil => simp
  | cons o rest ih =>
    cases o with
    | none => simp [ih]
    | some r =>
      simp only [List.any_cons, Bool.or_eq_true, ih, List.mem_cons]
      constructor
      · rintro (hr | ⟨r2, hmem, hp⟩)
        · exact ⟨r, Or.inl rfl, hr⟩
        · exact ⟨r2, Or.inr hmem, hp⟩
      · rintro ⟨r2, hmem | hmem, hp⟩
        · rw [Option.some.injEq] at hmem
          exact Or.inl (hmem ▸ hp)
        · exact Or.inr ⟨r2, hmem, hp⟩

theorem field_probe_iff (submit : String → Option HTTPResponse)
    (m : String) :
    field_probe submit m = true ↔
      (∃ r1, submit m = some r1 ∧ pyIn m r1.text = true) ∧
      (∃ pattern ∈ probe_patterns, ∃ r,
        submit (pattern ++ m) = some r ∧ pyIn m r.text = false) := by
  unfold field_probe
  cases h1 : submit m with
  | none => simp
  | some r1 =>
    simp only [Bool.and_eq_true, any_option_match_iff, Option.some.injEq]
    constructor
    · rintro ⟨hecho, r, hmem, hnot⟩
      rw [List.mem_map] at hmem
      obtain ⟨pattern, hpat, heq⟩ := hmem
      exact ⟨⟨r1, rfl, hecho⟩,
        pattern, hpat, r, heq, by simpa using hnot⟩
    · rintro ⟨⟨r1x, hr1x, hecho⟩, pattern, hpat, r, hr, hnot⟩
      refine ⟨hr1x.symm ▸ hecho, r, ?_, by simpa using hnot⟩
      rw [List.mem_map]
      exact ⟨pattern, hpat, hr⟩

/-- Claim C5: `is_form_has_response` returns `True` iff some input
field both reflects the random marker (non-`None` response containing
it) and, for at least one of the three template-control probes
`{{`, `{%`, `{#` prefixed to the marker, yields a non-`None` response
whose text does not contain the marker; in particular it is `False`
when the marker is never reflected or every probe returns `None`. -/
theorem form_response_iff :
  ∀ (inputs : List String)
    (submit : String → String → Option HTTPResponse)
    (marker : String → String),
  is_form_has_response inputs submit marker = true ↔
    ∃ input_field ∈ inputs,
      (∃ r1, submit input_field (marker input_field) = some r1 ∧
        pyIn (marker input_field) r1.text = true) ∧
      (∃ pattern ∈ probe_patterns, ∃ r,
        submit input_field (pattern ++ marker input_field) = some r ∧
        pyIn (marker input_field) r.text = false) := by
  intro inputs submit marker
  unfold is_form_has_response
  rw [List.any_eq_true]
  constructor
  · rintro ⟨f, hf, hp⟩
    exact ⟨f, hf, (field_probe_iff (submit f) (marker f)).mp hp⟩
  · rintro ⟨f, hf, hp⟩
    exact ⟨f, hf, (field_probe_iff (submit f) (marker f)).mpr hp⟩

/- ----- the command-execution driver (src/fenjing/cli.py) ----- -/

/-- The distinct `generate` calls `do_submit_cmdexec` can issue,
carrying the argument data of each call (the Python f-string/`repr`
assembly of the eval code strings is carried structurally). -/
inductive GenRequest where
  | config
  | findflagEval
  | evalCode (code : String)
  | lsRoot
  | lsPath (path : String)
  | catFile (path : String)
  | execStmts (stmts : String)
  | osPopenRead (cmd : String)

/-- `unset_extra_param("eval_this")` as called by `do_submit_cmdexec`:
for an `ExtraParamAndDataCustomizable` submitter it executes
`del self.extra_params["eval_this"]`, which raises `KeyError` when the
key is absent (modelled as `none`); for other submitters the guarding
`isinstance` check skips it. -/
def unset_eval_this (customizable : Bool) (extra_params : List String) :
    Option (List String) :=
  if customizable then
    if extra_params.contains "eval_this" then
      some (extra_params.erase "eval_this")
    else none
  else some extra_params

/-- The common tail of `do_submit_cmdexec` (cli.py lines 246-272) after
the `generate` call has been chosen: on a `None` payload log a warning,
run the unset cleanup and return `""` (lines 247-253); otherwise submit
the payload (`assert result is not None` — an assertion failure is
modelled as `none`), and either return the response text or, for
`@findflag`, the parsed flag data (`parse_getflag_info` plus `pformat`
are regex/base64 externals abstracted as `getflag`).  The result pairs
the returned string with the list of payloads actually submitted. -/
def run_generated (gen : GenRequest → Option String × Bool)
    (submit : String → Option HTTPResponse)
    (customizable : Bool) (getflag : String → Option String)
    (extra_params : List String) (req : GenRequest)
    (is_getflag_requested : Bool) : Option (String × List String) :=
  match gen req with
  | (none, _) =>
    match unset_eval_this customizable extra_params with
    | none => none
    | some _ => some ("", [])
  | (some payload, _will_print) =>
    match submit payload with
    | none => none
    | some result =>
      if is_getflag_requested then
        match unset_eval_this customizable extra_params with
        | none => none
        | some _ =>
          match getflag result.text with
          | some flags => some (flags, [payload])
          | none => some ("GETFLAG_FAILED", [payload])
      else some (result.text, [payload])

/-- `do_submit_cmdexec` (cli.py lines 170-272): command parsing and
dispatch.  `gen` abstracts `full_payload_gen_like.generate` (the
payload generator is not under src/), `submit` the submitter round
trip, `customizable` the `isinstance(submitter,
ExtraParamAndDataCustomizable)` test, and `extra_params` the keys of
the submitter's `extra_params` dict on entry.  `cmd[0]` raises
`IndexError` on an empty command (modelled as `none`). -/
def do_submit_cmdexec (gen : GenRequest → Option String × Bool)
    (submit : String → Option HTTPResponse)
    (customizable : Bool) (getflag : String → Option String)
    (extra_params : List String) (cmd : String) :
    Option (String × List String) :=
  match cmd.data with
  | [] => none
  | c :: _ =>
    if c = '@' then
      let cmd := cmd.drop 1
      if cmd.startsWith "get-config" then
        run_generated gen submit customizable getflag extra_params
          .config false
      else if cmd.startsWith "findflag" then
        if !customizable then some ("", [])
        else
          run_generated gen submit customizable getflag
            (extra_params.insert "eval_this") .findflagEval true
      else if cmd.startsWith "eval" then
        run_generated gen submit customizable getflag extra_params
          (.evalCode ((cmd.drop 4).trim)) false
      else if cmd.startsWith "ls" then
        let cmd := cmd.trim
        if cmd.length = 2 then
          run_generated gen submit customizable getflag extra_params
            .lsRoot false
        else
          run_generated gen submit customizable getflag extra_params
            (.lsPath ((cmd.drop 2).trim)) false
      else if cmd.startsWith "cat" then
        run_generated gen submit customizable getflag extra_params
          (.catFile ((cmd.drop 3).trim)) false
      else if cmd.startsWith "exec" then
        run_generated gen submit customizable getflag extra_params
          (.execStmts ((cmd.drop 4).trim)) false
      else some ("", [])
    else
      run_generated gen submit customizable getflag extra_params
        (.osPopenRead cmd) false

/-- Claim C7 (code bug in the source): when `generate` returns `None`
for the payload, `do_submit_cmdexec` is supposed to log a warning and
return `""` without submitting or raising — and it does so for a
submitter that is not `ExtraParamAndDataCustomizable` — but for a
customizable submitter (e.g. a `FormSubmitter`) with no extra params
set it first calls `unset_extra_param("eval_this")`, whose
`del self.extra_params["eval_this"]` raises `KeyError` because the key
was never set.  Evaluated here at the failing input `cmd = "id"`. -/
theorem do_submit_cmdexec_keyerror :
  (do_submit_cmdexec (fun _ => (none, false)) (fun _ => none) true
    (fun _ => none) [] "id" = none) ∧
  (do_submit_cmdexec (fun _ => (none, false)) (fun _ => none) false
    (fun _ => none) [] "id" = some ("", [])) ∧
  (do_submit_cmdexec (fun _ => (none, false)) (fun _ => none) true
    (fun _ => none) ["eval_this"] "id" = some ("", [])) := by
  refine ⟨rfl, rfl, rfl⟩

/- ----- update_content_length (src/fenjing/submitter.py 65-86) ----- -/

/-- The `\r\n\r\n` header/body separator. -/
def crlfcrlf : List Char := ['\r', '\n', '\r', '\n']

/-- Python `request.rpartition(b"\r\n\r\n")`, reduced to what
`update_content_length` uses: `none` when the separator does not occur
(Python returns `("", "", request)`, an empty header); otherwise
`some (header, body)` split at the LAST occurrence. -/
def splitLastSep : List Char → Option (List Char × List Char)
  | [] => none
  | c :: rest =>
    match splitLastSep rest with
    | some (h, b) => some (c :: h, b)
    | none =>
      if startsWithChars crlfcrlf (c :: rest) then
        some ([], (c :: rest).drop 4)
      else none

/-- The regex literal `Content-Length:` lower-cased for the
`re.IGNORECASE` comparison (ASCII folding, as for a bytes pattern). -/
def clPattern : List Char := "content-length:".data

/-- Case-insensitive (ASCII) prefix match of `clPattern`-style
patterns. -/
def matchesCI : List Char → List Char → Bool
  | [], _ => true
  | _ :: _, [] => false
  | p :: ps, c :: cs => (c.toLower == p) && matchesCI ps cs

/-- `re.subn(b"Content-Length:.*", repl, header, 0, re.IGNORECASE)` as
a left-to-right scan: at each position not inside a previous match the
pattern is tried; on a match `repl` is emitted and the rest of the
matched span is skipped (`.` matches every byte except `\n`, so the
span runs to the next `\n` exclusive — swallowing a `\r` line ending);
the second component counts the replacements. -/
def subnCLGo (repl : List Char) (skipping : Bool) :
    List Char → List Char × Nat
  | [] => ([], 0)
  | c :: cs =>
    if skipping ∧ c ≠ '\n' then subnCLGo repl true cs
    else if matchesCI clPattern (c :: cs) then
      let r := subnCLGo repl true cs
      (repl ++ r.1, r.2 + 1)
    else
      let r := subnCLGo repl false cs
      (c :: r.1, r.2)

/-- Some position of `l` starts a case-insensitive match of
`Content-Length:`. -/
def hasCLHeaderCI : List Char → Bool
  | [] => false
  | c :: cs => matchesCI clPattern (c :: cs) || hasCLHeaderCI cs

/-- The replacement bytes `Content-Length: {n}`. -/
def clHeaderText (n : Nat) : List Char :=
  "Content-Length: ".data ++ (Nat.repr n).data

/-- The new header produced by `update_content_length` for a given
header and body: the `re.subn` result, with the fresh header line
appended after `\r\n` when no replacement happened. -/
def updatedHeader (header body : List Char) : List Char :=
  let content_length_header := clHeaderText body.length
  let r := subnCLGo content_length_header false header
  if r.2 = 0 then
    r.1 ++ ('\r' :: '\n' :: []) ++ content_length_header
  else r.1

/-- `update_content_length` (submitter.py lines 65-86), bytes modelled
as character lists (each character one byte): `GET`/`HEAD` requests are
returned unchanged, as are requests whose header part (everything
before the last `\r\n\r\n`) is empty, separator missing included; the
rest get their `Content-Length` header rewritten to the body length. -/
def update_content_length (request : List Char) : List Char :=
  if startsWithChars "GET".data request ||
      startsWithChars "HEAD".data request then
    request
  else
    match splitLastSep request with
    | none => request
    | some (header, body) =>
      if header = [] then request
      else updatedHeader header body ++ crlfcrlf ++ body

theorem startsWith_eq_append :
    ∀ (p l : List Char), startsWithChars p l = true →
    l = p ++ l.drop p.length := by
  intro p
  induction p with
  | nil => intro l _; simp
  | cons x ps ih =>
    intro l h
    cases l with
    | nil => simp [startsWithChars] at h
    | cons c cs =>
      simp only [startsWithChars, Bool.and_eq_true, beq_iff_eq] at h
      obtain ⟨hx, hrest⟩ := h
      have := ih cs hrest
      simp [hx, List.cons_append, List.drop_succ_cons]
      exact this

theorem startsWith_self_append (p x : List Char) :
    startsWithChars p (p ++ x) = true := by
  induction p with
  | nil => rfl
  | cons c cs ih => simp [startsWithChars, ih]

theorem hasSub_of_startsWith (pat l : List Char)
    (h : startsWithChars pat l = true) :
    hasSubChars pat l = true := by
  cases l with
  | nil =>
    cases pat with
    | nil => rfl
    | cons p ps => simp [startsWithChars] at h
  | cons c cs => simp [hasSubChars, h]

theorem hasSub_cons_of (pat : List Char) (c : Char) (cs : List Char)
    (h : hasSubChars pat cs = true) :
    hasSubChars pat (c :: cs) = true := by
  simp [hasSubChars, h]

theorem hasSub_append_right (pat a b : List Char)
    (h : hasSubChars pat b = true) :
    hasSubChars pat (a ++ b) = true := by
  induction a with
  | nil => simpa using h
  | cons c cs ih => simpa [List.cons_append] using hasSub_cons_of pat c _ ih

theorem hasSub_false_tail (pat : List Char) (c : Char) (cs : List Char)
    (h : hasSubChars pat (c :: cs) = false) :
    hasSubChars pat cs = false := by
  simp only [hasSubChars, Bool.or_eq_false_iff] at h
  exact h.2

theorem hasSub_false_drop (pat : List Char) :
    ∀ (n : Nat) (l : List Char), hasSubChars pat l = false →
    hasSubChars pat (l.drop n) = false := by
  intro n
  induction n with
  | zero => intro l h; simpa using h
  | succ m ih =>
    intro l h
    cases l with
    | nil => simpa using h
    | cons c cs =>
      rw [List.drop_succ_cons]
      exact ih cs (hasSub_false_tail pat c cs h)

theorem splitLastSep_none_iff :
    ∀ l : List Char,
    splitLastSep l = none ↔ hasSubChars crlfcrlf l = false := by
  intro l
  induction l with
  | nil => simp [splitLastSep, hasSubChars, crlfcrlf, List.isEmpty]
  | cons c rest ih =>
    cases hr : splitLastSep rest with
    | some hb =>
      have hrest : hasSubChars crlfcrlf rest = true := by
        rcases h : hasSubChars crlfcrlf rest
        · exact absurd (ih.mpr h) (by simp [hr])
        · rfl
      simp [splitLastSep, hr, hasSubChars, hrest]
    | none =>
      have hrest : hasSubChars crlfcrlf rest = false := ih.mp hr
      by_cases hs : startsWithChars crlfcrlf (c :: rest) = true
      · simp [splitLastSep, hr, hs, hasSubChars]
      · rw [Bool.not_eq_true] at hs
        simp [splitLastSep, hr, hs, hasSubChars, hrest]

theorem splitLastSep_some_props :
    ∀ (l h b : List Char), splitLastSep l = some (h, b) →
    l = h ++ crlfcrlf ++ b ∧
    hasSubChars crlfcrlf b = false ∧
    startsWithChars ['\r', '\n'] b = false := by
  intro l
  induction l with
  | nil => intro h b heq; simp [splitLastSep] at heq
  | cons c rest ih =>
    intro h b heq
    cases hr : splitLastSep rest with
    | some pair =>
      obtain ⟨h0, b0⟩ := pair
      simp only [splitLastSep, hr, Option.some.injEq, Prod.mk.injEq] at heq
      obtain ⟨hh, hb⟩ := heq
      obtain ⟨hdec, hsub, hsw⟩ := ih h0 b0 hr
      subst hh
      subst hb
      refine ⟨?_, hsub, hsw⟩
      rw [hdec]
      simp [List.cons_append]
    | none =>
      have hnone : hasSubChars crlfcrlf rest = false :=
        (splitLastSep_none_iff rest).mp hr
      by_cases hs : startsWithChars crlfcrlf (c :: rest) = true
      · simp only [splitLastSep, hr, hs, if_true, Option.some.injEq,
          Prod.mk.injEq] at heq
        obtain ⟨hh, hb⟩ := heq
        subst hh
        subst hb
        have hdec := startsWith_eq_append crlfcrlf (c :: rest) hs
        have hlen : crlfcrlf.length = 4 := rfl
        rw [hlen] at hdec
        have hdrop : (c :: rest).drop 4 = rest.drop 3 :=
          List.drop_succ_cons
        refine ⟨by simpa using hdec, ?_, ?_⟩
        · rw [hdrop]
          exact hasSub_false_drop crlfcrlf 3 rest hnone
        · by_contra hb2
          rw [Bool.not_eq_false] at hb2
          have hbdec := startsWith_eq_append ['\r', '\n'] _ hb2
          have hrest : rest = '\n' :: '\r' :: '\n' :: (c :: rest).drop 4 := by
            have hx : c :: rest =
                '\r' :: '\n' :: '\r' :: '\n' :: (c :: rest).drop 4 := by
              simpa [crlfcrlf, List.cons_append] using hdec
            exact (List.cons.inj hx).2
          have hcontr : hasSubChars crlfcrlf rest = true := by
            rw [hrest, hbdec]
            apply hasSub_cons_of
            have h5 : ('\r' :: '\n' :: (['\r', '\n'] ++
                List.drop (['\r', '\n'] : List Char).length
                  ((c :: rest).drop 4))) =
                crlfcrlf ++
                List.drop (['\r', '\n'] : List Char).length
                  ((c :: rest).drop 4) := by
              simp [crlfcrlf, List.cons_append]
            rw [h5]
            exact hasSub_of_startsWith _ _ (startsWith_self_append _ _)
          rw [hnone] at hcontr
          exact Bool.false_ne_true hcontr
      · rw [Bool.not_eq_true] at hs
        simp [splitLastSep, hr, hs] at heq

theorem splitLastSep_concat :
    ∀ (X b : List Char), hasSubChars crlfcrlf b = false →
    startsWithChars ['\r', '\n'] b = false →
    splitLastSep (X ++ crlfcrlf ++ b) = some (X, b) := by
  intro X
  induction X with
  | nil =>
    intro b hb hb2
    have hb3 : hasSubChars ['\r', '\n', '\r', '\n'] b = false := hb
    have h3 : hasSubChars crlfcrlf ('\n' :: '\r' :: '\n' :: b) = false := by
      simp [hasSubChars, startsWithChars, crlfcrlf, hb3, hb2]
    have h4 : splitLastSep ('\n' :: '\r' :: '\n' :: b) = none :=
      (splitLastSep_none_iff _).mpr h3
    have h5 : startsWithChars crlfcrlf
        ('\r' :: '\n' :: '\r' :: '\n' :: b) = true := by
      have := startsWith_self_append crlfcrlf b
      simpa [crlfcrlf, List.cons_append] using this
    have hshape : ([] : List Char) ++ crlfcrlf ++ b =
        '\r' :: '\n' :: '\r' :: '\n' :: b := by
      simp [crlfcrlf, List.cons_append]
    rw [hshape, splitLastSep, h4]
    simp [h5]
  | cons x X' ih =>
    intro b hb hb2
    have hshape : (x :: X') ++ crlfcrlf ++ b =
        x :: (X' ++ crlfcrlf ++ b) := by
      simp [List.cons_append]
    rw [hshape, splitLastSep, ih b hb hb2]

theorem subnCLGo_count_zero_iff :
    ∀ (repl l : List Char),
    (subnCLGo repl false l).2 = 0 ↔ hasCLHeaderCI l = false := by
  intro repl l
  induction l with
  | nil => simp [subnCLGo, hasCLHeaderCI]
  | cons c cs ih =>
    cases hm : matchesCI clPattern (c :: cs) with
    | true => simp [subnCLGo, hasCLHeaderCI, hm]
    | false => simp [subnCLGo, hasCLHeaderCI, hm, ih]

theorem subnCLGo_zero_result :
    ∀ (repl l : List Char), (subnCLGo repl false l).2 = 0 →
    (subnCLGo repl false l).1 = l := by
  intro repl l
  induction l with
  | nil => intro _; rfl
  | cons c cs ih =>
    intro h
    cases hm : matchesCI clPattern (c :: cs) with
    | true => simp [subnCLGo, hm] at h
    | false =>
      have hrw : subnCLGo repl false (c :: cs) =
          (c :: (subnCLGo repl false cs).1, (subnCLGo repl false cs).2) := by
        simp [subnCLGo, hm]
      rw [hrw] at h ⊢
      exact congrArg (c :: ·) (ih h)

theorem subnCLGo_pos_contains :
    ∀ (repl l : List Char) (skipping : Bool),
    0 < (subnCLGo repl skipping l).2 →
    hasSubChars repl (subnCLGo repl skipping l).1 = true := by
  intro repl l
  induction l with
  | nil => intro skipping h; simp [subnCLGo] at h
  | cons c cs ih =>
    intro skipping h
    by_cases hskip : (skipping = true ∧ ¬ c = '\n')
    · rw [subnCLGo, if_pos (by simpa using hskip)] at h ⊢
      exact ih true h
    · rw [subnCLGo, if_neg (by simpa using hskip)] at h ⊢
      cases hm : matchesCI clPattern (c :: cs) with
      | true =>
        simp only [hm, if_true]
        apply hasSub_of_startsWith
        exact startsWith_self_append repl _
      | false =>
        simp only [hm, Bool.false_eq_true, if_false] at h ⊢
        exact hasSub_cons_of _ _ _ (ih false h)

/-- Claim C8 counterexample: the request `"\r\n\r\nok"` does not start
with `GET` or `HEAD` and does contain the `\r\n\r\n` separator, yet
`update_content_length` returns it unchanged — in particular without
any `Content-Length` header for its 2-byte body — because the header
part before the (only) separator is empty and the function bails out
on `len(header) == 0`. -/
theorem update_content_length_cex :
  startsWithChars "GET".data ("\r\n\r\nok".data) = false ∧
  startsWithChars "HEAD".data ("\r\n\r\nok".data) = false ∧
  hasSubChars crlfcrlf ("\r\n\r\nok".data) = true ∧
  update_content_length ("\r\n\r\nok".data) = "\r\n\r\nok".data ∧
  hasSubChars ("Content-Length".data)
    (update_content_length ("\r\n\r\nok".data)) = false := by
  refine ⟨by decide, by decide, by decide, by decide, by decide⟩

/-- Claim C8 as amended: `update_content_length` returns unchanged any
request starting with `GET` or `HEAD`, any request without a
`\r\n\r\n` separator, and also any request whose header part (the
bytes before the LAST separator) is empty; every other request is
rebuilt as `newHeader ++ "\r\n\r\n" ++ body` with the body (the bytes
after the last separator) unchanged — also as the bytes after the last
separator of the result — where the new header contains
`Content-Length: {body length}`, appended after `\r\n` when no
case-insensitive `Content-Length:` occurrence existed, and produced by
replacing the existing occurrence(s) otherwise. -/
theorem update_content_length_amended :
  ∀ request : List Char,
  ((startsWithChars "GET".data request ||
      startsWithChars "HEAD".data request) = true →
    update_content_length request = request) ∧
  (hasSubChars crlfcrlf request = false →
    update_content_length request = request) ∧
  (∀ b, splitLastSep request = some ([], b) →
    update_content_length request = request) ∧
  (∀ header body,
    (startsWithChars "GET".data request ||
      startsWithChars "HEAD".data request) = false →
    splitLastSep request = some (header, body) →
    header ≠ [] →
    request = header ++ crlfcrlf ++ body ∧
    update_content_length request =
      updatedHeader header body ++ crlfcrlf ++ body ∧
    splitLastSep (update_content_length request) =
      some (updatedHeader header body, body) ∧
    hasSubChars (clHeaderText body.length)
      (updatedHeader header body) = true ∧
    (hasCLHeaderCI header = false →
      updatedHeader header body =
        header ++ ('\r' :: '\n' :: []) ++ clHeaderText body.length) ∧
    (hasCLHeaderCI header = true →
      (subnCLGo (clHeaderText body.length) false header).2 ≠ 0)) := by
  intro request
  refine ⟨?_, ?_, ?_, ?_⟩
  · intro h
    simp [update_content_length, h]
  · intro h
    have hn : splitLastSep request = none :=
      (splitLastSep_none_iff request).mpr h
    unfold update_content_length
    by_cases hg : (startsWithChars "GET".data request ||
        startsWithChars "HEAD".data request) = true
    · simp [hg]
    · rw [Bool.not_eq_true] at hg
      simp [hg, hn]
  · intro b hb
    unfold update_content_length
    by_cases hg : (startsWithChars "GET".data request ||
        startsWithChars "HEAD".data request) = true
    · simp [hg]
    · rw [Bool.not_eq_true] at hg
      simp [hg, hb]
  · intro header body hg hsplit hne
    obtain ⟨hdec, hbsub, hbsw⟩ :=
      splitLastSep_some_props request header body hsplit
    have hupd : update_content_length request =
        updatedHeader header body ++ crlfcrlf ++ body := by
      unfold update_content_length
      simp [hg, hsplit, hne]
    refine ⟨hdec, hupd, ?_, ?_, ?_, ?_⟩
    · rw [hupd]
      exact splitLastSep_concat _ _ hbsub hbsw
    · unfold updatedHeader
      rcases hz : (subnCLGo (clHeaderText body.length) false header).2 with
        _ | n
      · simp only [hz, if_pos rfl]
        apply hasSub_append_right
        apply hasSub_of_startsWith
        have h6 := startsWith_self_append (clHeaderText body.length) []
        simpa using h6
      · simp only [hz, Nat.succ_ne_zero, if_neg, if_false]
        have hpos : 0 <
            (subnCLGo (clHeaderText body.length) false header).2 := by
          omega
        exact subnCLGo_pos_contains _ header false hpos
    · intro hcl
      have hz : (subnCLGo (clHeaderText body.length) false header).2 = 0 :=
        (subnCLGo_count_zero_iff _ header).mpr hcl
      unfold updatedHeader
      simp [hz, subnCLGo_zero_result _ header hz]
    · intro hcl hz
      have := (subnCLGo_count_zero_iff
        (clHeaderText body.length) header).mp hz
      rw [hcl] at this
      exact absurd this (by simp)

/-- Claim C8 (amended) witness: a POST request with an existing
`Content-Length` header gets it rewritten to the body length. -/
theorem update_content_length_amended_witness :
  update_content_length ("POST x\r\nContent-Length: 1\r\n\r\nab".data) =
    updatedHeader ("POST x\r\nContent-Length: 1".data) ("ab".data) ++
      crlfcrlf ++ "ab".data ∧
  splitLastSep
      (update_content_length
        ("POST x\r\nContent-Length: 1\r\n\r\nab".data)) =
    some (updatedHeader ("POST x\r\nContent-Length: 1".data) ("ab".data),
      "ab".data) ∧
  updatedHeader ("POST x\r\nContent-Length: 1".data) ("ab".data) =
    "POST x\r\nContent-Length: 2".data := by
  have h := (update_content_length_amended
      ("POST x\r\nContent-Length: 1\r\n\r\nab".data)).2.2.2
    ("POST x\r\nContent-Length: 1".data) ("ab".data)
    (by decide) (by decide) (by decide)
  exact ⟨h.2.1, h.2.2.1, by decide⟩

/- ----- PathSubmitter (src/fenjing/submitter.py 323-377) ----- -/

/-- `PathSubmitter.__init__` (submitter.py lines 326-351): the stored
URL gets a trailing `/` appended when missing. -/
def PathSubmitter_init_url (url : String) : String :=
  if url.endsWith "/" then url else url ++ "/"

/-- `PathSubmitter.submit_raw` (submitter.py lines 353-377): refuse
(returning `None` without any network activity) every payload
containing one of `/`, `..`, ` `, `%`; otherwise issue one GET request
to the stored URL concatenated with the percent-quoted payload.
`quote` abstracts the stdlib `urllib.parse.quote`, `request` the
`HTTPRequester.request` network round trip (method, url); the second
component lists the requests actually issued (the UI callback is
elided). -/
def PathSubmitter_submit_raw (quote : String → String)
    (request : String × String → Option HTTPResponse)
    (url : String) (raw_payload : String) :
    Option HTTPResponse × List (String × String) :=
  if pyIn "/" raw_payload || pyIn ".." raw_payload ||
      pyIn " " raw_payload || pyIn "%" raw_payload then
    (none, [])
  else
    let resp := request ("GET", url ++ quote raw_payload)
    (match resp with
     | none => none
     | some r => some ⟨r.status_code, r.text⟩,
     [("GET", url ++ quote raw_payload)])

/-- Claim C9: `PathSubmitter.submit_raw` returns `None` and issues no
network request whenever the payload contains `/`, `..`, ` ` or `%`;
for every other payload it issues exactly one GET request, to the
stored URL concatenated with the percent-quoted payload, and relays
the response (`None` when the requester fails). -/
theorem path_submit_raw_filter :
  ∀ (quote : String → String)
    (request : String × String → Option HTTPResponse)
    (url raw_payload : String),
  ((pyIn "/" raw_payload || pyIn ".." raw_payload ||
      pyIn " " raw_payload || pyIn "%" raw_payload) = true →
    PathSubmitter_submit_raw quote request url raw_payload = (none, [])) ∧
  ((pyIn "/" raw_payload || pyIn ".." raw_payload ||
      pyIn " " raw_payload || pyIn "%" raw_payload) = false →
    (PathSubmitter_submit_raw quote request url raw_payload).2 =
      [("GET", url ++ quote raw_payload)] ∧
    (PathSubmitter_submit_raw quote request url raw_payload).1 =
      match request ("GET", url ++ quote raw_payload) with
      | none => none
      | some r => some ⟨r.status_code, r.text⟩) := by
  intro quote request url raw_payload
  constructor
  · intro h
    simp [PathSubmitter_submit_raw, h]
  · intro h
    refine ⟨?_, ?_⟩ <;> simp [PathSubmitter_submit_raw, h]

/-- Claim C9 witness: a path-illegal payload is refused, a clean one is
submitted once, percent-quoted, to the stored URL. -/
theorem path_submit_raw_filter_witness :
  PathSubmitter_submit_raw (fun s => s) (fun _ => none) "u/" "a/b" =
    (none, []) ∧
  (PathSubmitter_submit_raw (fun s => s) (fun _ => none) "u/" "ab").2 =
    [("GET", "u/" ++ "ab")] := by
  have h1 := (path_submit_raw_filter (fun s => s) (fun _ => none)
    "u/" "a/b").1 (by decide)
  have h2 := (path_submit_raw_filter (fun s => s) (fun _ => none)
    "u/" "ab").2 (by decide)
  exact ⟨h1, h2.1⟩
